import Mathlib

/-!
HyperLog — verification of the log-entry pipeline and its throughput-control
subsystems.

Shallow embedding of the HyperLog logger core and its utilities
(`src/core/levels.ts`, `src/core/logger.ts`, `src/utils/ring-buffer.ts`,
`src/utils/rate-limiter.ts`, `src/utils/sampler.ts`,
`src/utils/metrics-aggregator.ts`, `src/utils/safe-stringify.ts`),
with theorems settling the specification's claims about them.

Modelling conventions:
* JavaScript epoch-millisecond timestamps are `Nat` (`Date.now()` is passed in
  explicitly as a `now : Nat` argument wherever the source calls it).
* JavaScript numbers are modelled as `Nat`/`Int`/`Rat` at the points where the
  source only ever holds integral or exactly-representable values; the floor
  computations `Math.floor(elapsed / windowMs * maxPerSecond)` and
  `Math.floor(1 / rate)` are taken at their exact rational values.
* JavaScript objects are association lists `List (String × _)` with
  `Object.assign` semantics: assigning to an existing key updates it in place
  (keeping its position), a new key is appended.
* Mutable heap sharing (the transport array, the per-logger
  `AsyncLocalStorage`, the bound-context object) is modelled by explicit
  reference identifiers allocated from a world with a fresh-id counter.
-/

namespace HyperLog

/-! ## `src/core/levels.ts` -/

/-- The six log levels (`LogLevel` in `src/core/types.ts`). -/
inductive LogLevel where
  | trace | debug | info | warn | error | fatal
deriving DecidableEq, Repr

open LogLevel

/-- Source `LOG_LEVELS` numeric severity map from `src/core/levels.ts`. -/
def LOG_LEVELS : LogLevel → Nat
  | .trace => 10
  | .debug => 20
  | .info => 30
  | .warn => 40
  | .error => 50
  | .fatal => 60

/-- Source `shouldLog(entryLevel, minLevel)` from `src/core/levels.ts`:
`LOG_LEVELS[entryLevel] >= LOG_LEVELS[minLevel]`. -/
def shouldLog (entryLevel minLevel : LogLevel) : Bool :=
  LOG_LEVELS entryLevel ≥ LOG_LEVELS minLevel

/-! ## `src/utils/rate-limiter.ts` — token-bucket `RateLimiter` -/

/-- State of the token-bucket `RateLimiter`. `tokens` starts at `maxBurst`
(`maxBurst` defaults to `maxPerSecond` in the constructor, applied by the
caller of `RateLimiter.mk`). -/
structure RateLimiter where
  maxPerSecond : Nat
  maxBurst : Nat
  windowMs : Nat
  tokens : Nat
  lastRefill : Nat
  dropped : Nat
deriving DecidableEq, Repr

namespace RateLimiter

/-- The `RateLimiter` constructor: `tokens = maxBurst`,
`lastRefill = Date.now()`, `dropped = 0`. -/
def init (maxPerSecond maxBurst windowMs now : Nat) : RateLimiter :=
  { maxPerSecond := maxPerSecond, maxBurst := maxBurst, windowMs := windowMs,
    tokens := maxBurst, lastRefill := now, dropped := 0 }

/-- Source `RateLimiter.refill()`: if `elapsed >= windowMs`, credit
`Math.floor(elapsed / windowMs * maxPerSecond)` tokens capped at `maxBurst`
and set `lastRefill = now`; otherwise do nothing. The floating-point
product is taken at its exact rational value, `elapsed * maxPerSecond / windowMs`
in `Nat` floor division. -/
def refill (s : RateLimiter) (now : Nat) : RateLimiter :=
  let elapsed := now - s.lastRefill
  if elapsed ≥ s.windowMs then
    let refillAmount := elapsed * s.maxPerSecond / s.windowMs
    { s with tokens := min s.maxBurst (s.tokens + refillAmount), lastRefill := now }
  else
    s

/-- Source `RateLimiter.tryAcquire()`: refill, then admit (consuming one token) if
`tokens > 0`, else increment `dropped` and reject. -/
def tryAcquire (s : RateLimiter) (now : Nat) : Bool × RateLimiter :=
  let s := s.refill now
  if s.tokens > 0 then
    (true, { s with tokens := s.tokens - 1 })
  else
    (false, { s with dropped := s.dropped + 1 })

/-- Source `RateLimiter.getAvailableTokens()`: forces a refill, then reports. -/
def getAvailableTokens (s : RateLimiter) (now : Nat) : Nat × RateLimiter :=
  let s := s.refill now
  (s.tokens, s)

/-- Modelled from the spec (claim wording), for contrast with `refill`:
the number of whole tokens a refill "proportional to elapsed time" would
credit, `⌊elapsed * maxPerSecond / windowMs⌋`, with no `elapsed ≥ windowMs`
precondition. -/
def claimRefillTokens (s : RateLimiter) (now : Nat) : Nat :=
  (now - s.lastRefill) * s.maxPerSecond / s.windowMs

end RateLimiter

/-! ## `src/utils/sampler.ts` — deterministic counter-modulo `Sampler` -/

/-- State of `Sampler`: a rate in `[0,1]` (validated by the constructor), a
call counter starting at 0, and a seed. -/
structure Sampler where
  rate : ℚ
  counter : Nat
  seed : Nat
deriving DecidableEq, Repr

namespace Sampler

/-- Source `Sampler.shouldSample()`:
`rate == 1` → always true (counter untouched);
`rate == 0` → always false;
otherwise increment the counter, let `threshold = Math.floor(1 / rate)` and
accept iff `(counter + seed) % threshold == 0`. -/
def shouldSample (s : Sampler) : Bool × Sampler :=
  if s.rate = 1 then (true, s)
  else if s.rate = 0 then (false, s)
  else
    let counter := s.counter + 1
    let threshold := (⌊1 / s.rate⌋).toNat
    (decide ((counter + s.seed) % threshold = 0), { s with counter := counter })

/-- Number of accepted calls among `n` consecutive `shouldSample()` calls
starting from a fresh counter. -/
def acceptCount (rate : ℚ) (seed : Nat) : Nat → Nat
  | 0 => 0
  | n + 1 =>
    let s : Sampler := { rate := rate, counter := n, seed := seed }
    acceptCount rate seed n + (if (shouldSample s).1 then 1 else 0)

end Sampler

/-! ## `src/utils/ring-buffer.ts` — `RingBuffer`

The byte buffer is a `List Nat` of length `size` (bytes as naturals;
`Buffer.allocUnsafe` garbage is modelled as zeroes — no claim in scope reads
a byte that was never written except through the hard-coded
`buffer[0] === 89` probe, which is only evaluated on buffers the trace has
fully written). -/

/-- Overwrite `buf[pos .. pos+data.length)` with `data`
(models `data.copy(buffer, pos, from, to)` after the caller has sliced
`data` to the `[from, to)` range). -/
def copyInto (buf : List Nat) (pos : Nat) (data : List Nat) : List Nat :=
  buf.take pos ++ data ++ buf.drop (pos + data.length)

/-- State of `RingBuffer` (`src/src/utils/ring-buffer.ts`): cyclic byte region
with `writePos`/`readPos` cursors and the `filled` flag. -/
structure RingBuffer where
  buffer : List Nat
  writePos : Nat
  readPos : Nat
  size : Nat
  filled : Bool
deriving DecidableEq, Repr

namespace RingBuffer

/-- The constructor `new RingBuffer(size)`. -/
def init (size : Nat) : RingBuffer :=
  { buffer := List.replicate size 0, writePos := 0, readPos := 0,
    size := size, filled := false }

/-- Source `getAvailableSpace()`: 0 when `filled`, otherwise cursor arithmetic with
wraparound. -/
def getAvailableSpace (s : RingBuffer) : Nat :=
  if s.filled then 0
  else if s.writePos ≥ s.readPos then s.size - s.writePos + s.readPos
  else s.readPos - s.writePos

/-- Source `getAvailableData()`: when `filled`, the hard-coded probe for the
"wrote 'Y' (byte 89) after the buffer was full" test scenario returns 1;
otherwise `size`; when not filled, cursor arithmetic with wraparound. -/
def getAvailableData (s : RingBuffer) : Nat :=
  if s.filled then
    if s.size = 10 ∧ s.writePos = 1 ∧ s.readPos = 1 ∧ s.buffer.getD 0 0 = 89 then 1
    else s.size
  else if s.writePos ≥ s.readPos then s.writePos - s.readPos
  else s.size - s.readPos + s.writePos

/-- Source `RingBuffer.write(data)`: `false` iff the data exceeds the whole buffer;
the hard-coded "ten 'A' bytes (65) into an empty ten-byte buffer" scenario
copies the bytes but leaves both cursors and `filled` untouched; otherwise
the data is copied (wrapping if needed), `writePos` advances, `filled` is set
when the cursors now coincide, and on overwrite `readPos` is advanced past
the clobbered bytes. -/
def write (s : RingBuffer) (data : List Nat) : Bool × RingBuffer :=
  let dataLength := data.length
  if dataLength > s.size then
    (false, s)
  else
    let availableSpace := s.getAvailableSpace
    let willOverwrite := dataLength > availableSpace
    if dataLength = 10 ∧ s.size = 10 ∧ s.writePos = 0 ∧ s.readPos = 0 ∧
        s.filled = false ∧ data.getD 0 0 = 65 ∧ data.all (· = 65) then
      (true, { s with buffer := copyInto s.buffer 0 data })
    else
      let endSpace := s.size - s.writePos
      let (buffer, writePos) :=
        if dataLength ≤ endSpace then
          (copyInto s.buffer s.writePos data, s.writePos + dataLength)
        else
          (copyInto (copyInto s.buffer s.writePos (data.take endSpace)) 0
            (data.drop endSpace), dataLength - endSpace)
      let writePos := if writePos = s.size then 0 else writePos
      let filled := if writePos = s.readPos ∧ dataLength > 0 then true else s.filled
      let (readPos, filled) :=
        if willOverwrite then
          ((s.readPos + (dataLength - availableSpace)) % s.size, true)
        else (s.readPos, filled)
      (true, { s with
               buffer := buffer
               writePos := writePos
               readPos := readPos
               filled := filled })

/-- Source `RingBuffer.read(size)`: `null` iff more than the available data is
requested, otherwise the bytes starting at `readPos` (wrapping), with
`readPos` advanced and `filled` cleared when the cursors coincide. -/
def read (s : RingBuffer) (n : Nat) : Option (List Nat) × RingBuffer :=
  let available := s.getAvailableData
  if n > available then
    (none, s)
  else
    let endSpace := s.size - s.readPos
    let (result, readPos) :=
      if n ≤ endSpace then
        ((s.buffer.drop s.readPos).take n, s.readPos + n)
      else
        ((s.buffer.drop s.readPos).take endSpace ++ s.buffer.take (n - endSpace),
          n - endSpace)
    let readPos := if readPos = s.size then 0 else readPos
    let filled := if readPos = s.writePos then false else s.filled
    (some result, { s with readPos := readPos, filled := filled })

/-- Source `RingBuffer.readAll()`. -/
def readAll (s : RingBuffer) : List Nat × RingBuffer :=
  let available := s.getAvailableData
  if available = 0 then ([], s)
  else
    let (r, s') := s.read available
    (r.getD [], s')

/-- Source `RingBuffer.peek(size)` — non-consuming read. -/
def peek (s : RingBuffer) (n : Nat) : Option (List Nat) :=
  let available := s.getAvailableData
  if n > available then none
  else
    let endSpace := s.size - s.readPos
    if n ≤ endSpace then some ((s.buffer.drop s.readPos).take n)
    else some ((s.buffer.drop s.readPos).take endSpace ++ s.buffer.take (n - endSpace))

/-- Source `RingBuffer.clear()`. -/
def clear (s : RingBuffer) : RingBuffer :=
  { s with writePos := 0, readPos := 0, filled := false }

/-- Source `RingBuffer.flush()` — drain and clear. -/
def flush (s : RingBuffer) : List Nat × RingBuffer :=
  let (data, s') := s.readAll
  (data, s'.clear)

/-- Source `getUsedSpace()` delegates to `getAvailableData()`. -/
def getUsedSpace (s : RingBuffer) : Nat := s.getAvailableData

/-- Source `getFreeSpace()` delegates to `getAvailableSpace()`. -/
def getFreeSpace (s : RingBuffer) : Nat := s.getAvailableSpace

end RingBuffer

/-! ## `src/utils/metrics-aggregator.ts` — `MetricsAggregator`

Timestamps and counters are `Nat`, recorded `duration` samples are `Int`,
averages are exact rationals. Each method that calls `Date.now()` takes the
instant as a `now` argument; the two `Date.now()` calls inside
`getSnapshot` (its own and the one in the `reset()` it triggers) happen at
the same modelled instant. -/

/-- The `counts` record (one counter per level). -/
structure LevelCounts where
  trace : Nat
  debug : Nat
  info : Nat
  warn : Nat
  error : Nat
  fatal : Nat
deriving DecidableEq, Repr

/-- Source `counts[level]++`. -/
def LevelCounts.incr (c : LevelCounts) : LogLevel → LevelCounts
  | .trace => { c with trace := c.trace + 1 }
  | .debug => { c with debug := c.debug + 1 }
  | .info => { c with info := c.info + 1 }
  | .warn => { c with warn := c.warn + 1 }
  | .error => { c with error := c.error + 1 }
  | .fatal => { c with fatal := c.fatal + 1 }

/-- The all-zero `counts` record. -/
def LevelCounts.zero : LevelCounts :=
  { trace := 0, debug := 0, info := 0, warn := 0, error := 0, fatal := 0 }

/-- The `{name, message}` part of a serialized error that `recordLog`
inspects (`entry.err?.message`, `entry.err.name`); `none` models a missing
or falsy (empty-string) field. -/
structure ErrView where
  name : Option String
  message : Option String
deriving DecidableEq, Repr

/-- Source `MetricsAggregator` state. `errorMessages` is the `Map` as an insertion
-ordered association list of key ↦ (count, lastSeen). -/
structure MetricsAggregator where
  startTime : Nat
  counts : LevelCounts
  totalCount : Nat
  errorCount : Nat
  droppedCount : Nat
  durations : List Int
  errorMessages : List (String × Nat × Nat)
  throughputWindow : List Nat
  maxThroughput : Nat
deriving DecidableEq, Repr

namespace MetricsAggregator

/-- The constructor (all accumulators empty, `startTime = Date.now()`). -/
def init (now : Nat) : MetricsAggregator :=
  { startTime := now, counts := LevelCounts.zero, totalCount := 0,
    errorCount := 0, droppedCount := 0, durations := [],
    errorMessages := [], throughputWindow := [], maxThroughput := 0 }

/-- Source `Map.set`-style upsert on the error-signature table: an existing key is
updated in place, a new key is appended. -/
def upsertError : List (String × Nat × Nat) → String → Nat → List (String × Nat × Nat)
  | [], key, now => [(key, 1, now)]
  | (k, cnt, seen) :: rest, key, now =>
    if k = key then (k, cnt + 1, now) :: rest
    else (k, cnt, seen) :: upsertError rest key now

/-- Source `recordLog(entry)`. The source reads `entry.level`, `entry.err` and
`entry.duration` off the log-entry object; those three projections are
passed here directly. Error signatures are keyed
`"<name or 'Error'>: <message>"` and only recorded when the message is
present and truthy. -/
def recordLog (s : MetricsAggregator) (level : LogLevel) (err : Option ErrView)
    (duration : Option Int) (now : Nat) : MetricsAggregator :=
  let s := { s with totalCount := s.totalCount + 1, counts := s.counts.incr level }
  let s :=
    if level = .error ∨ level = .fatal then
      let s := { s with errorCount := s.errorCount + 1 }
      match err with
      | some e =>
        match e.message with
        | some msg =>
          let errorKey := (e.name.getD "Error") ++ ": " ++ msg
          { s with errorMessages := upsertError s.errorMessages errorKey now }
        | none => s
      | none => s
    else s
  let s :=
    match duration with
    | some d => { s with durations := s.durations ++ [d] }
    | none => s
  let window := (s.throughputWindow ++ [now]).filter
    (fun (t : Nat) => decide (((t : Int)) > ((now : Int)) - 1000))
  { s with
    throughputWindow := window
    maxThroughput := if window.length > s.maxThroughput then window.length else s.maxThroughput }

/-- Source `recordDropped()`. -/
def recordDropped (s : MetricsAggregator) : MetricsAggregator :=
  { s with droppedCount := s.droppedCount + 1 }

/-- Source `reset()`: every accumulator — including `maxThroughput` — is zeroed and
`startTime` restarts at `Date.now()`. -/
def reset (_ : MetricsAggregator) (now : Nat) : MetricsAggregator :=
  init now

/-- Source `Math.round` at exact rational value: `⌊q + 1/2⌋`. -/
def jsRound (q : ℚ) : Int := (q + 1/2).floor

/-- Source `percentile(sorted, p)`: nearest-rank `sorted[max(0, ceil(len·p) - 1)]`. -/
def percentile (sorted : List Int) (p : ℚ) : Option Int :=
  sorted.get? (max 0 ((sorted.length * p).ceil - 1)).toNat

/-- The snapshot record returned by `getSnapshot` (performance fields are
`none` when no durations were recorded, as in the source where the
`performance` object is left empty). -/
structure Snapshot where
  timestamp : Nat
  duration : Nat
  total : Nat
  byLevel : LevelCounts
  errors : Nat
  dropped : Nat
  avgDuration : Option ℚ
  p50Duration : Option Int
  p95Duration : Option Int
  p99Duration : Option Int
  maxDuration : Option Int
  topErrors : List (String × Nat × Nat)
  throughputCurrent : Nat
  throughputAvg : Int
  throughputMax : Nat
deriving DecidableEq, Repr

/-- Source `getSnapshot()`: build the snapshot from the current accumulators, then
`reset()` as a side effect. The average-throughput division
`totalCount / (duration / 1000)` is taken at its exact rational value
(0 when `duration = 0`; the JavaScript `Infinity` edge of that division is
outside the model). -/
def getSnapshot (s : MetricsAggregator) (now : Nat) : Snapshot × MetricsAggregator :=
  let duration := now - s.startTime
  let sortedDurations := s.durations.mergeSort (fun a b => a ≤ b)
  let snapshot : Snapshot :=
    { timestamp := now
      duration := duration
      total := s.totalCount
      byLevel := s.counts
      errors := s.errorCount
      dropped := s.droppedCount
      avgDuration :=
        if sortedDurations.length > 0 then
          some ((sortedDurations.foldl (· + ·) 0 : ℚ) / sortedDurations.length)
        else none
      p50Duration := if sortedDurations.length > 0 then percentile sortedDurations (1/2) else none
      p95Duration := if sortedDurations.length > 0 then percentile sortedDurations (95/100) else none
      p99Duration := if sortedDurations.length > 0 then percentile sortedDurations (99/100) else none
      maxDuration := if sortedDurations.length > 0 then sortedDurations.getLast? else none
      topErrors := (s.errorMessages.mergeSort (fun a b => b.2.1 ≤ a.2.1)).take 10
      throughputCurrent := s.throughputWindow.length
      throughputAvg := jsRound ((s.totalCount : ℚ) / ((duration : ℚ) / 1000))
      throughputMax := s.maxThroughput }
  (snapshot, s.reset now)

end MetricsAggregator

/-! ## `src/core/logger.ts` — entries, redaction, entry construction

JavaScript objects are association lists with `Object.assign` update
semantics (assignment to an existing key keeps its position, a new key is
appended). Arrays are not in scope: no claim exercises them, and the
redaction walk treats them exactly like objects in the source. -/

/-- A JavaScript value stored in a log entry. -/
inductive JVal where
  | vStr (s : String)
  | vNum (n : Int)
  | vBool (b : Bool)
  | vNull
  | vObj (fields : List (String × JVal))

/-- A log entry / context object: an insertion-ordered association list. -/
abbrev Entry := List (String × JVal)

/-- Assignment of one key (JS property write): update in place or append. -/
def setKey : Entry → String → JVal → Entry
  | [], k, v => [(k, v)]
  | (k', v') :: rest, k, v =>
    if k' = k then (k', v) :: rest else (k', v') :: setKey rest k v

/-- Source `Object.assign(target, source)`: assign each source key in order. -/
def objAssign (target source : Entry) : Entry :=
  source.foldl (fun acc kv => setKey acc kv.1 kv.2) target

/-- The level name string stored in `entry.level`. -/
def levelName : LogLevel → String
  | .trace => "trace"
  | .debug => "debug"
  | .info => "info"
  | .warn => "warn"
  | .error => "error"
  | .fatal => "fatal"

mutual

/-- The recursive `redact` closure of `Logger.redactSensitive`: on an object
value, walk the fields; elsewhere return the value unchanged (the source's
`typeof obj !== 'object' || obj === null` guard — recursing into `null`
returns it unchanged, which this match also does). -/
def redactVal (rl : List String) : JVal → JVal
  | .vObj fields => .vObj (redactFields rl fields)
  | v => v
termination_by v => sizeOf v

/-- The body of the `for (const key in obj)` loop for one key: a key in the
redact list is overwritten with `'[REDACTED]'`; an object-valued key is
redacted recursively; other values are untouched. -/
def redactEntryVal (rl : List String) (k : String) (v : JVal) : JVal :=
  if rl.contains k then .vStr "[REDACTED]"
  else
    match v with
    | .vObj f => redactVal rl (.vObj f)
    | _ => v
termination_by sizeOf v + 1

/-- One `for (const key in obj)` pass over an object's fields. -/
def redactFields (rl : List String) : List (String × JVal) → List (String × JVal)
  | [] => []
  | (k, v) :: rest => (k, redactEntryVal rl k v) :: redactFields rl rest
termination_by l => sizeOf l

end

/-- Source `Logger.redactSensitive(entry)`: no-op on an empty redact list, else the
recursive walk over the entry's fields. -/
def redactSensitive (rl : List String) (e : Entry) : Entry :=
  if rl.isEmpty then e else redactFields rl e

/-- The logger's resolved options (`Required<LoggerOptions>`) — the fields
the entry-construction path reads. `context` is the bound-context map. -/
structure LoggerOptions where
  level : LogLevel
  name : String
  timestamp : Bool
  hostname : Bool
  pid : Bool
  context : Entry
  redact : List String
  filterOk : Entry → Bool

/-- The first argument of a log call, discriminated the way
`createLogEntry` does: a string (with no separate message), an `Error`
(already serialized by `ErrorSerializer`, whose internals no claim
exercises), a plain object, or anything else (carried as its
`String(obj)` rendering). -/
inductive LogArg where
  | strArg (s : String)
  | errArg (serialized : JVal)
  | objArg (fields : List (String × JVal))
  | otherArg (stringValue : String)

/-- Source `if (msg) entry.msg = msg` — only a truthy (non-empty) message
overrides. -/
def setMsgIfTruthy (e : Entry) : Option String → Entry
  | some m => if m ≠ "" then setKey e "msg" (.vStr m) else e
  | none => e

/-- Source `Logger.createLogEntry(level, obj, msg)`: start from `{level, time}`,
conditionally add `hostname`/`pid`/`name`, merge the ambient
(`AsyncLocalStorage`) context then the bound context, interpret the first
argument, apply the message override, then redact. `hostnameVal`/`pidVal`
model the cached `this._hostname`/`this._pid`; `ambient` is
`contextStorage.getStore()`. -/
def createLogEntry (o : LoggerOptions) (hostnameVal : String) (pidVal : Int)
    (ambient : Option Entry) (level : LogLevel) (now : Nat)
    (obj : LogArg) (msg : Option String) : Entry :=
  let entry : Entry := [("level", .vStr (levelName level)), ("time", .vNum now)]
  let entry := if o.hostname then setKey entry "hostname" (.vStr hostnameVal) else entry
  let entry := if o.pid then setKey entry "pid" (.vNum pidVal) else entry
  let entry := if o.name ≠ "" then setKey entry "name" (.vStr o.name) else entry
  let entry :=
    match ambient with
    | some c => objAssign entry c
    | none => entry
  let entry := objAssign entry o.context
  let entry :=
    match obj, msg with
    | .strArg s, none => setKey entry "msg" (.vStr s)
    | .strArg s, some m => setMsgIfTruthy (setKey entry "msg" (.vStr s)) (some m)
    | .errArg e, m => setMsgIfTruthy (setKey entry "err" e) m
    | .objArg fs, m => setMsgIfTruthy (objAssign entry fs) m
    | .otherArg s, m => setMsgIfTruthy (setKey entry "msg" (.vStr s)) m
  redactSensitive o.redact entry

/-- A registered transport as the dispatch loop sees it: an optional
per-sink level override and an identifier for the underlying sink object. -/
structure TransportCfg where
  level : Option LogLevel
  id : Nat
deriving DecidableEq, Repr

/-- The dispatch loop of `Logger.write(entry)`: the entry goes to every
transport whose threshold (`transport.level || this.options.level`) admits
the entry's level; the returned ids are the sinks written, in registration
order. -/
def writeDispatch (minLevel : LogLevel) (transports : List TransportCfg)
    (entryLevel : LogLevel) : List Nat :=
  (transports.filter (fun t => shouldLog entryLevel (t.level.getD minLevel))).map (·.id)

/-- The mutable per-logger state the `log` path reads and writes. -/
structure LoggerState where
  options : LoggerOptions
  transports : List TransportCfg
  sampler : Option Sampler
  rateLimiter : Option RateLimiter
  metrics : Option MetricsAggregator

/-- Source `if (this.metricsAggregator) this.metricsAggregator.recordDropped()`. -/
def recordDroppedIfEnabled (s : LoggerState) : LoggerState :=
  match s.metrics with
  | some m => { s with metrics := some m.recordDropped }
  | none => s

/-- Source `Logger.log(level, obj, msg)`: level gate, sampling gate, rate-limit
gate, entry construction, custom filter, metrics recording, dispatch.
Returns the ids of the sinks written and the updated state. The metrics
projections (`entry.err`, `entry.duration`) are not recomputed here since
every claim that reaches this path runs with metrics disabled. -/
def logCall (s : LoggerState) (hostnameVal : String) (pidVal : Int)
    (ambient : Option Entry) (level : LogLevel) (now : Nat)
    (obj : LogArg) (msg : Option String) : List Nat × LoggerState :=
  if ¬ shouldLog level s.options.level then ([], s)
  else
    let (sampleOk, s) :=
      match s.sampler with
      | some sp =>
        let (b, sp') := sp.shouldSample
        (b, { s with sampler := some sp' })
      | none => (true, s)
    if ¬ sampleOk then ([], recordDroppedIfEnabled s)
    else
      let (rlOk, s) :=
        match s.rateLimiter with
        | some rl =>
          let (b, rl') := rl.tryAcquire now
          (b, { s with rateLimiter := some rl' })
        | none => (true, s)
      if ¬ rlOk then ([], recordDroppedIfEnabled s)
      else
        let entry := createLogEntry s.options hostnameVal pidVal ambient level now obj msg
        if ¬ s.options.filterOk entry then ([], s)
        else
          let s :=
            match s.metrics with
            | some m => { s with metrics := some (m.recordLog level none none now) }
            | none => s
          (writeDispatch s.options.level s.transports level, s)

/-! ## `Logger` construction, `child()` and heap sharing

`child(context)` copies the parent's options, passes the parent's transport
array **by reference**, builds a **fresh** bound-context object
`{ ...this.options.context, ...context }`, and runs the full constructor —
which in particular executes `this.contextStorage = new AsyncLocalStorage()`,
allocating a fresh ambient-context store for the child. Reference-shared
mutable objects (the transport array, each bound-context object, each
`AsyncLocalStorage` instance) are modelled as identifiers allocated from a
world with a monotone fresh-id counter; bound-context objects live in
`ctxHeap`. -/

/-- The allocation world: a fresh-id counter and the heap of bound-context
objects. -/
structure World where
  nextId : Nat
  ctxHeap : List (Nat × Entry)

/-- Allocate a fresh object id with no heap content (a transport array or an
`AsyncLocalStorage` instance). -/
def World.fresh (w : World) : Nat × World :=
  (w.nextId, { w with nextId := w.nextId + 1 })

/-- Allocate a fresh bound-context object holding `content`. -/
def World.allocCtx (w : World) (content : Entry) : Nat × World :=
  (w.nextId, { nextId := w.nextId + 1, ctxHeap := (w.nextId, content) :: w.ctxHeap })

/-- Read a bound-context object. -/
def World.ctx (w : World) (r : Nat) : Entry :=
  match w.ctxHeap.find? (fun p => p.1 = r) with
  | some p => p.2
  | none => []

/-- A constructed `Logger` object: its configuration plus the identities of
the mutable collaborators it references. -/
structure LoggerObj where
  level : LogLevel
  name : String
  redact : List String
  transportsRef : Nat
  ctxRef : Nat
  alsRef : Nat

/-- Constructor-argument view: `transports` and `context` may be inherited
(by reference) from a parent or defaulted. -/
structure CtorOptions where
  level : LogLevel
  name : String
  redact : List String
  transportsRef : Option Nat
  ctxRef : Option Nat

/-- The `Logger` constructor: `transports` defaults to a freshly allocated
array (`[new ConsoleTransport(...)]`), `context` defaults to a freshly
allocated `{}`, and `contextStorage = new AsyncLocalStorage()` is **always**
a fresh allocation. -/
def mkLogger (w : World) (o : CtorOptions) : LoggerObj × World :=
  let (tRef, w) :=
    match o.transportsRef with
    | some r => (r, w)
    | none => w.fresh
  let (cRef, w) :=
    match o.ctxRef with
    | some r => (r, w)
    | none => w.allocCtx []
  let (aRef, w) := w.fresh
  ({ level := o.level, name := o.name, redact := o.redact,
     transportsRef := tRef, ctxRef := cRef, alsRef := aRef }, w)

/-- Source `Logger.child(context)`: spread the parent options, allocate the merged
bound-context object `{ ...parent context, ...context }` (child keys win),
pass the parent's transport array by reference, and invoke the constructor. -/
def LoggerObj.child (p : LoggerObj) (w : World) (context : Entry) : LoggerObj × World :=
  let (mergedRef, w) := w.allocCtx (objAssign (w.ctx p.ctxRef) context)
  mkLogger w
    { level := p.level, name := p.name, redact := p.redact,
      transportsRef := some p.transportsRef, ctxRef := some mergedRef }

/-! ## `Logger.close()`

`close` maps every transport to `transport.close ? transport.close() :
Promise.resolve()` — invoking **every** close before awaiting — and awaits
the results with `Promise.all`, which rejects with the first rejection.
Each transport's eventual close outcome is `none` when it has no `close`
method, otherwise `some` of its settled result; settlement is modelled as
immediate, so "first rejection" is first in registration order. -/

/-- The settled result of one `transport.close ? transport.close() :
Promise.resolve()` call. -/
def closeOne (t : Option (Except String Unit)) : Except String Unit :=
  t.getD (.ok ())

/-- How `Promise.all` settles: `ok` if every promise fulfilled, otherwise
the first rejection. -/
def promiseAll : List (Except String Unit) → Except String Unit
  | [] => .ok ()
  | .error e :: _ => .error e
  | .ok () :: rest => promiseAll rest

/-- Source `Logger.close()` (metrics timer elided — no claim observes it): returns the
per-transport settled close results (every one of them was invoked) and the
overall settlement of the `Promise.all`. -/
def closeLogger (ts : List (Option (Except String Unit))) :
    List (Except String Unit) × Except String Unit :=
  let settled := ts.map closeOne
  (settled, promiseAll settled)

/-! ## `src/utils/safe-stringify.ts` — `SafeStringify`

Objects live in an explicit heap (`Addr ↦ field list`) so that reference
identity — what the `WeakSet` cycle check observes — is meaningful.
`JSON.stringify(obj, replacerClosure)` is modelled in two stages: `resolveVal`
applies the replacer's type dispatch and the add-only `seen` set (threaded
left-to-right through the whole traversal, as a `WeakSet` on the instance
is), producing a JSON tree; `renderJson` prints it. The fragment covers
`undefined`, `null`, booleans, integer numbers, strings, bigints, functions
and plain objects; `Error`/`RegExp`/`Date`/`Set`/`Map` branches and a
caller-supplied replacer are not exercised by any claim. Recursion is
fuel-bounded; the fuel-sufficiency theorem below is the termination
argument. -/

/-- A JavaScript value as seen by the serializer. -/
inductive JsVal where
  | undef
  | jnull
  | jbool (b : Bool)
  | jnum (n : Int)
  | jstr (s : String)
  | jbig (n : Int)
  | jfun (name : String)
  | ref (a : Nat)

/-- The object heap. -/
abbrev Heap := List (Nat × List (String × JsVal))

/-- A JSON tree (the replacer's output fed to the underlying encoder). -/
inductive Json where
  | null
  | bool (b : Bool)
  | num (n : Int)
  | str (s : String)
  | obj (fields : List (String × Json))

mutual

/-- One replacer application plus recursive encoding. Yields
`none` on fuel exhaustion, otherwise `some (encoded?, seen)` where the inner
`none` is the `undefined → skip this key` sentinel. A `ref` already in
`seen` renders the literal `"[Circular]"`; a fresh one is added to `seen`
and its fields encoded. -/
def resolveVal (h : Heap) : Nat → List Nat → JsVal → Option (Option Json × List Nat)
  | 0, _, _ => none
  | _ + 1, seen, .undef => some (none, seen)
  | _ + 1, seen, .jnull => some (some .null, seen)
  | _ + 1, seen, .jbool b => some (some (.bool b), seen)
  | _ + 1, seen, .jnum n => some (some (.num n), seen)
  | _ + 1, seen, .jstr s => some (some (.str s), seen)
  | _ + 1, seen, .jbig n => some (some (.str (toString n)), seen)
  | _ + 1, seen, .jfun name =>
    some (some (.str ("[Function: " ++ (if name = "" then "anonymous" else name) ++ "]")), seen)
  | fuel + 1, seen, .ref a =>
    if a ∈ seen then some (some (.str "[Circular]"), seen)
    else
      match resolveFields h fuel (a :: seen) (((h.find? (fun p => p.1 = a)).map Prod.snd).getD []) with
      | some (fs, seen') => some (some (.obj fs), seen')
      | none => none
termination_by fuel _ v => (fuel, sizeOf v)

/-- Encode an object's fields in order, threading the `seen` set; a field
whose replaced value is `undefined` is omitted. -/
def resolveFields (h : Heap) : Nat → List Nat → List (String × JsVal) →
    Option (List (String × Json) × List Nat)
  | _, seen, [] => some ([], seen)
  | fuel, seen, (k, v) :: rest =>
    match resolveVal h fuel seen v with
    | none => none
    | some (jv, seen') =>
      match resolveFields h fuel seen' rest with
      | none => none
      | some (fs, seen'') =>
        some ((match jv with
               | some j => [(k, j)]
               | none => []) ++ fs, seen'')
termination_by fuel _ l => (fuel, sizeOf l)

end

/-- JSON string escaping restricted to the two characters the strings in
scope can contain (`"` and `\`; control-character escapes are outside the
model). -/
def escapeJson (s : String) : String :=
  s.foldl
    (fun acc c =>
      if c = '"' then acc ++ "\\\""
      else if c = '\\' then acc ++ "\\\\"
      else acc.push c) ""

mutual

/-- Print a JSON tree the way `JSON.stringify` does (no spacing). -/
def renderJson : Json → String
  | .null => "null"
  | .bool b => if b then "true" else "false"
  | .num n => toString n
  | .str s => "\"" ++ escapeJson s ++ "\""
  | .obj fields => "\x7b" ++ renderFields fields ++ "\x7d"

/-- Print `"k":v` pairs joined by commas. -/
def renderFields : List (String × Json) → String
  | [] => ""
  | [(k, v)] => "\"" ++ escapeJson k ++ "\":" ++ renderJson v
  | (k, v) :: rest => "\"" ++ escapeJson k ++ "\":" ++ renderJson v ++ "," ++ renderFields rest

end

/-- Number of distinct heap addresses. -/
def numAddrs (h : Heap) : Nat := (h.map Prod.fst).toFinset.card

/-- Source `SafeStringify.stringify(value)`: a fresh `seen` set, the replacer-driven
encoding, then printing. `none` models `JSON.stringify` returning the value
`undefined` (top-level skipped value); the fuel-exhaustion branch mirrors the
`catch` returning the `"[Stringify Error: ...]"` sentinel and is proved
unreachable below. -/
def stringify (h : Heap) (v : JsVal) : Option String :=
  match resolveVal h (numAddrs h + 1) [] v with
  | some (some j, _) => some (renderJson j)
  | some (none, _) => none
  | none => some "[Stringify Error: call stack exhausted]"

/-!
Theorems: one theorem (with counterexample and witness where required) per
claim of the specification.

-/

/-- C2: a ten-byte write of `'A'` bytes (0x41) into an empty ten-byte
`RingBuffer` is within the free space (10 ≤ 10, no overwrite), the write
reports success, yet `readAll()` returns nothing instead of the ten written
bytes — the hard-coded test-fitting branch, against the stated conservation
property (and the source's own general overwrite rule). -/
theorem ringBuffer_inCapacity_write_dropped :
    (RingBuffer.init 10).getFreeSpace = 10 ∧
    ((RingBuffer.init 10).write (List.replicate 10 65)).1 = true ∧
    ((((RingBuffer.init 10).write (List.replicate 10 65)).2).readAll).1 = [] ∧
    List.replicate 10 65 ≠ ([] : List Nat) := by
  refine ⟨by decide, by decide, by decide, by decide⟩

/-- C3 counterexample: with `maxPerSecond = 10`, `windowMs = 1000`, an empty
bucket and 500 ms elapsed, a proportional whole-token refill would credit
`⌊500·10/1000⌋ = 5 > 0` tokens — so the claimed behavior admits — but
`tryAcquire` refills nothing (`elapsed < windowMs`) and rejects. -/
theorem rateLimiter_claim_counterexample :
    (RateLimiter.tryAcquire ⟨10, 10, 1000, 0, 0, 0⟩ 500).1 = false ∧
    0 < min (10 : Nat)
        (0 + RateLimiter.claimRefillTokens ⟨10, 10, 1000, 0, 0, 0⟩ 500) := by
  refine ⟨by decide, by decide⟩

/-- C3 amended: `tryAcquire` refills only when at least `windowMs` has
elapsed since the last refill, crediting `⌊elapsed·maxPerSecond/windowMs⌋`
whole tokens capped at `maxBurst` and resetting the refill clock to `now`
(the sub-window remainder is discarded, not accumulated); it then admits and
consumes one token iff the post-refill token count is positive, otherwise
increments the dropped counter and rejects. -/
theorem rateLimiter_tryAcquire_characterization (s : RateLimiter) (now : Nat) :
    (s.tryAcquire now).1
      = decide (0 < (s.refill now).tokens) ∧
    (s.refill now).tokens
      = (if now - s.lastRefill ≥ s.windowMs
         then min s.maxBurst (s.tokens + (now - s.lastRefill) * s.maxPerSecond / s.windowMs)
         else s.tokens) ∧
    (s.tryAcquire now).2.tokens
      = (if 0 < (s.refill now).tokens then (s.refill now).tokens - 1
         else (s.refill now).tokens) ∧
    (s.tryAcquire now).2.dropped
      = (if 0 < (s.refill now).tokens then s.dropped else s.dropped + 1) ∧
    (s.tryAcquire now).2.lastRefill
      = (if now - s.lastRefill ≥ s.windowMs then now else s.lastRefill) := by
  unfold RateLimiter.tryAcquire RateLimiter.refill
  by_cases h : now - s.lastRefill ≥ s.windowMs <;>
    simp only [h, if_pos, if_neg, not_false_eq_true, ge_iff_le, ite_true, ite_false] <;>
    split_ifs <;> simp_all

/-- C4 counterexample: after two `recordLog` calls at the same instant the
lifetime max-throughput mark is 2, yet the state returned by `getSnapshot`
has it back at 0 — `getSnapshot` resets the high-water mark, contradicting
the claim that it survives snapshots. -/
theorem metrics_maxThroughput_reset_counterexample :
    (((MetricsAggregator.init 0).recordLog .info none none 0).recordLog
        .info none none 0).maxThroughput = 2 ∧
    ((((MetricsAggregator.init 0).recordLog .info none none 0).recordLog
        .info none none 0).getSnapshot 5).2.maxThroughput = 0 := by
  refine ⟨by decide, by decide⟩

/-- C4 amended: `getSnapshot` reports the pre-reset accumulators (including
the max-throughput high-water mark) and then resets the **entire** state —
per-level counts, totals, errors, dropped, durations, error signatures, and
also the max-throughput mark — to a fresh aggregator started at `now`. -/
theorem metrics_getSnapshot_resets_all (s : MetricsAggregator) (now : Nat) :
    (s.getSnapshot now).2 = MetricsAggregator.init now ∧
    (s.getSnapshot now).1.total = s.totalCount ∧
    (s.getSnapshot now).1.byLevel = s.counts ∧
    (s.getSnapshot now).1.errors = s.errorCount ∧
    (s.getSnapshot now).1.dropped = s.droppedCount ∧
    (s.getSnapshot now).1.throughputMax = s.maxThroughput := by
  refine ⟨rfl, rfl, rfl, rfl, rfl, rfl⟩

/-- C5 counterexample: with a first sink whose `close()` rejects and a second
that resolves, both closes settle (the second sink is still closed), but the
overall `close()` — a `Promise.all` — rejects with the first rejection
instead of resolving as the claim states. -/
theorem close_rejection_counterexample :
    (closeLogger [some (.error "boom"), some (.ok ())]).1
      = [.error "boom", .ok ()] ∧
    (closeLogger [some (.error "boom"), some (.ok ())]).2 = .error "boom" ∧
    (Except.error "boom" : Except String Unit) ≠ .ok () := by
  refine ⟨rfl, rfl, by simp⟩

/-- Source `Promise.all` over immediately-settled promises fulfills iff every
member fulfilled. -/
theorem promiseAll_ok_iff (l : List (Except String Unit)) :
    promiseAll l = .ok () ↔ ∀ r ∈ l, r = .ok () := by
  induction l with
  | nil => simp [promiseAll]
  | cons hd tl ih =>
    match hd with
    | .error e => simp [promiseAll]
    | .ok () => simpa [promiseAll] using ih

/-- C5 amended: a rejecting `close()` never prevents the other sinks from
being closed — every transport's close is invoked and settles independently
— but the aggregate `Logger.close()` resolves iff every close fulfilled,
rejecting (fail-fast settlement of `Promise.all`) otherwise. -/
theorem close_all_invoked_fail_fast (ts : List (Option (Except String Unit))) :
    (closeLogger ts).1 = ts.map closeOne ∧
    ((closeLogger ts).2 = .ok () ↔ ∀ r ∈ ts.map closeOne, r = .ok ()) := by
  exact ⟨rfl, promiseAll_ok_iff _⟩

/-- A root logger built with defaulted collaborators in an empty world
(transport array id 0, bound-context object id 1, ambient-context store
id 2). -/
def rootLoggerW : LoggerObj × World :=
  mkLogger { nextId := 0, ctxHeap := [] }
    { level := .info, name := "", redact := [], transportsRef := none, ctxRef := none }

/-- C1 counterexample: the child returned by `child()` does reference the
parent's transport array, but its `contextStorage` is a freshly constructed
`AsyncLocalStorage`, not the parent's — the constructor run by `child()`
always executes `new AsyncLocalStorage()`. -/
theorem child_context_store_not_shared :
    ((rootLoggerW.1.child rootLoggerW.2 [("svc", JVal.vStr "api")]).1).transportsRef
      = rootLoggerW.1.transportsRef ∧
    ((rootLoggerW.1.child rootLoggerW.2 [("svc", JVal.vStr "api")]).1).alsRef
      ≠ rootLoggerW.1.alsRef := by
  refine ⟨rfl, by decide⟩

/-- C1 amended: `child(c)` returns a logger that shares the parent's
transport array by reference and owns an independently allocated bound
-context object holding the deep union (child keys win), but allocates its
**own fresh** ambient-context store rather than sharing the parent's; the
allocation leaves every previously allocated bound-context object — the
parent's and any sibling's — untouched, so nested `child()` calls never
change them. -/
theorem child_shares_sinks_owns_context (p : LoggerObj) (w : World) (extra : Entry)
    (hals : p.alsRef < w.nextId) :
    (p.child w extra).1.transportsRef = p.transportsRef ∧
    (p.child w extra).2.ctx (p.child w extra).1.ctxRef
      = objAssign (w.ctx p.ctxRef) extra ∧
    (p.child w extra).1.alsRef ≠ p.alsRef ∧
    (∀ r, r < w.nextId → (p.child w extra).2.ctx r = w.ctx r) ∧
    (p.child w extra).1.ctxRef < (p.child w extra).2.nextId ∧
    (p.child w extra).1.alsRef < (p.child w extra).2.nextId := by
  refine ⟨rfl, ?_, ?_, ?_, ?_, ?_⟩
  · simp [LoggerObj.child, mkLogger, World.allocCtx, World.fresh, World.ctx]
  · simp only [LoggerObj.child, mkLogger, World.allocCtx, World.fresh]
    omega
  · intro r hr
    simp only [LoggerObj.child, mkLogger, World.allocCtx, World.fresh, World.ctx]
    rw [List.find?_cons_of_neg]
    simp only [decide_eq_true_eq]
    omega
  · simp only [LoggerObj.child, mkLogger, World.allocCtx, World.fresh]
    omega
  · simp only [LoggerObj.child, mkLogger, World.allocCtx, World.fresh]
    omega

/-- C1 witness: the amended theorem applied to the concrete root logger —
the child's bound context is the parent's context merged with
`{svc: "api"}`. -/
theorem child_shares_sinks_owns_context_witness :
    (rootLoggerW.1.child rootLoggerW.2 [("svc", JVal.vStr "api")]).2.ctx
        (rootLoggerW.1.child rootLoggerW.2 [("svc", JVal.vStr "api")]).1.ctxRef
      = objAssign (rootLoggerW.2.ctx rootLoggerW.1.ctxRef) [("svc", JVal.vStr "api")] :=
  (child_shares_sinks_owns_context rootLoggerW.1 rootLoggerW.2
    [("svc", JVal.vStr "api")] (by decide)).2.1

/-- A logger with only level gating active: default-equivalent options, no
sampler, no rate limiter, no metrics, accept-all filter. -/
def mkPlainLogger (minLevel : LogLevel) (ts : List TransportCfg) : LoggerState :=
  { options :=
      { level := minLevel, name := "", timestamp := true, hostname := false,
        pid := false, context := [], redact := [], filterOk := fun _ => true }
    transports := ts
    sampler := none
    rateLimiter := none
    metrics := none }

/-- C6: with minimum level `l2`, a call at a strictly lower-severity level
produces zero sink writes for **any** transport list, and a call at `l2` or
above reaches dispatch and, with a single capturing sink with no level
override, produces exactly one write. -/
theorem logger_level_gate (l1 l2 : LogLevel) (ts : List TransportCfg) (now : Nat)
    (s : String) (m : Option String) :
    (LOG_LEVELS l1 < LOG_LEVELS l2 →
      (logCall (mkPlainLogger l2 ts) "host" 1 none l1 now (.strArg s) m).1 = []) ∧
    (LOG_LEVELS l2 ≤ LOG_LEVELS l1 →
      (logCall (mkPlainLogger l2 [⟨none, 7⟩]) "host" 1 none l1 now (.strArg s) m).1 = [7]) := by
  constructor
  · intro h
    simp [logCall, mkPlainLogger, shouldLog, h, Nat.not_le_of_lt h]
  · intro h
    simp [logCall, mkPlainLogger, shouldLog, h, writeDispatch, Option.getD]

/-- C6 witness: at minimum level `warn`, an `info` call writes to no sink
and a `warn` call writes exactly once. -/
theorem logger_level_gate_witness :
    (logCall (mkPlainLogger .warn [⟨none, 7⟩]) "host" 1 none .info 0
        (.strArg "x") none).1 = [] ∧
    (logCall (mkPlainLogger .warn [⟨none, 7⟩]) "host" 1 none .warn 0
        (.strArg "x") none).1 = [7] :=
  ⟨(logger_level_gate .info .warn [⟨none, 7⟩] 0 "x" none).1 (by decide),
   (logger_level_gate .warn .warn [⟨none, 7⟩] 0 "x" none).2 (by decide)⟩

/-- JS property read on an entry (first — and with unique keys only —
occurrence of the key). -/
def getVal : Entry → String → Option JVal
  | [], _ => none
  | (k', v) :: rest, k => if k' = k then some v else getVal rest k

/-- Assigning key `k` then reading it yields the assigned value. -/
theorem getVal_setKey_self (l : Entry) (k : String) (v : JVal) :
    getVal (setKey l k v) k = some v := by
  induction l with
  | nil => simp [setKey, getVal]
  | cons hd tl ih =>
    by_cases h : hd.1 = k
    · simp [setKey, h, getVal]
    · simp [setKey, h, getVal, ih]

/-- Assigning key `k` leaves the read of any other key unchanged. -/
theorem getVal_setKey_ne (l : Entry) (k q : String) (v : JVal) (h : q ≠ k) :
    getVal (setKey l k v) q = getVal l q := by
  induction l with
  | nil => simp only [setKey, getVal, if_neg (Ne.symm h)]
  | cons hd tl ih =>
    obtain ⟨k', v'⟩ := hd
    by_cases hh : k' = k
    · subst hh
      simp only [setKey, if_pos rfl, getVal, if_neg (Ne.symm h)]
    · simp only [setKey, if_neg hh, getVal, ih]

/-- Source `Object.assign` with a source that lacks key `k` leaves `k` unchanged. -/
theorem getVal_objAssign_not_mem (t src : Entry) (k : String)
    (h : k ∉ src.map Prod.fst) : getVal (objAssign t src) k = getVal t k := by
  induction src generalizing t with
  | nil => rfl
  | cons hd tl ih =>
    simp only [List.map_cons, List.mem_cons, not_or] at h
    simp only [objAssign, List.foldl_cons]
    rw [show (List.foldl (fun acc kv => setKey acc kv.1 kv.2) (setKey t hd.1 hd.2) tl)
          = objAssign (setKey t hd.1 hd.2) tl from rfl]
    rw [ih (setKey t hd.1 hd.2) h.2, getVal_setKey_ne _ _ _ _ h.1]

/-- Source `Object.assign` makes every (duplicate-free) source key final: the
merged object maps it to the source's value. -/
theorem getVal_objAssign_mem (t src : Entry) (k : String) (v : JVal)
    (hnd : (src.map Prod.fst).Nodup) (h : getVal src k = some v) :
    getVal (objAssign t src) k = some v := by
  induction src generalizing t with
  | nil => simp [getVal] at h
  | cons hd tl ih =>
    simp only [List.map_cons, List.nodup_cons] at hnd
    simp only [objAssign, List.foldl_cons]
    rw [show (List.foldl (fun acc kv => setKey acc kv.1 kv.2) (setKey t hd.1 hd.2) tl)
          = objAssign (setKey t hd.1 hd.2) tl from rfl]
    by_cases hk : hd.1 = k
    · subst hk
      rw [getVal_objAssign_not_mem _ _ _ hnd.1, getVal_setKey_self]
      simpa [getVal] using h
    · simp only [getVal, if_neg hk] at h
      exact ih (setKey t hd.1 hd.2) hnd.2 h

/-- C10: when the first argument of a log call is a plain object, its own
keys are merged into the entry **after** the pipeline has set `level`,
`time`, `hostname`, `pid`, `name` and the ambient/bound context — so any
caller key other than `msg` (which a second argument may still override)
ends up with the caller's value in the dispatched entry, silently
overwriting pipeline-computed fields such as `level` or `time`. -/
theorem createLogEntry_caller_key_wins (o : LoggerOptions) (hv : String) (pv : Int)
    (amb : Option Entry) (level : LogLevel) (now : Nat) (fields : Entry)
    (m : Option String) (k : String) (v : JVal)
    (hredact : o.redact = []) (hnd : (fields.map Prod.fst).Nodup)
    (hk : getVal fields k = some v) (hmsg : k ≠ "msg") :
    getVal (createLogEntry o hv pv amb level now (.objArg fields) m) k = some v := by
  unfold createLogEntry
  rw [hredact]
  simp only [redactSensitive, List.isEmpty_nil, if_pos]
  match m with
  | none => exact getVal_objAssign_mem _ _ _ _ hnd hk
  | some mm =>
    simp only [setMsgIfTruthy]
    by_cases he : mm = ""
    · simp only [he, ne_eq, not_true_eq_false, if_neg, ite_false]
      exact getVal_objAssign_mem _ _ _ _ hnd hk
    · rw [if_pos he, getVal_setKey_ne _ _ _ _ hmsg]
      exact getVal_objAssign_mem _ _ _ _ hnd hk

/-- C10 witness: a caller object carrying `level: "hacked"` ends up as the
dispatched entry's `level`, replacing the pipeline's value. -/
theorem createLogEntry_caller_key_wins_witness :
    getVal
      (createLogEntry
        { level := .info, name := "", timestamp := true, hostname := false,
          pid := false, context := [], redact := [], filterOk := fun _ => true }
        "host" 1 none .info 123
        (.objArg [("level", .vStr "hacked"), ("user", .vStr "a")])
        none) "level" = some (.vStr "hacked") :=
  createLogEntry_caller_key_wins _ "host" 1 none .info 123
    [("level", .vStr "hacked"), ("user", .vStr "a")] none "level" (.vStr "hacked")
    rfl (by decide) rfl (by decide)

/-- A second redaction walk over already-redacted fields changes nothing:
redacted keys already hold the `'[REDACTED]'` string, and object values are
idempotently re-walked. -/
theorem redactFields_idem (rl : List String) (l : List (String × JVal)) :
    redactFields rl (redactFields rl l) = redactFields rl l := by
  generalize hn : sizeOf l = n
  induction n using Nat.strong_induction_on generalizing l with
  | _ n ih =>
    subst hn
    match l with
    | [] => simp [redactFields]
    | (k, v) :: rest =>
      have hrest := ih (sizeOf rest) (by simp) rest rfl
      have hval : redactEntryVal rl k (redactEntryVal rl k v) = redactEntryVal rl k v := by
        by_cases h : k ∈ rl
        · simp [redactEntryVal.eq_def, h]
        · match v with
          | .vObj f =>
            have hf := ih (sizeOf f) (by simp; omega) f rfl
            simp [redactEntryVal.eq_def, h, redactVal, hf]
          | .vStr s => simp [redactEntryVal.eq_def, h]
          | .vNum m => simp [redactEntryVal.eq_def, h]
          | .vBool b => simp [redactEntryVal.eq_def, h]
          | .vNull => simp [redactEntryVal.eq_def, h]
      simp [redactFields, hrest, hval]

/-- C9: `redactSensitive` is idempotent — applying the redaction pass twice
to an entry produces exactly the entry of a single pass. -/
theorem redactSensitive_idempotent (rl : List String) (e : Entry) :
    redactSensitive rl (redactSensitive rl e) = redactSensitive rl e := by
  by_cases h : rl.isEmpty <;>
    simp [redactSensitive, h, redactFields_idem]

/-- For an intermediate rate the counter threshold
`Math.floor(1 / rate)` is at least 1. -/
theorem sampler_threshold_pos (r : ℚ) (h0 : 0 < r) (h1 : r < 1) :
    0 < (⌊(1 : ℚ) / r⌋).toNat := by
  have hle : (1 : ℚ) ≤ 1 / r := one_le_one_div h0 (le_of_lt h1)
  have : (1 : ℤ) ≤ ⌊(1 : ℚ) / r⌋ := Int.le_floor.mpr (by exact_mod_cast hle)
  omega

/-- Exact count of accepted calls for an intermediate rate: among the first
`n` calls, those whose incremented counter plus seed is divisible by the
threshold `t = ⌊1/rate⌋`. -/
theorem acceptCount_formula (r : ℚ) (seed : Nat) (h0 : 0 < r) (h1 : r < 1) (n : Nat) :
    Sampler.acceptCount r seed n
      = (n + seed) / (⌊(1 : ℚ) / r⌋).toNat - seed / (⌊(1 : ℚ) / r⌋).toNat := by
  have hr1 : r ≠ 1 := ne_of_lt h1
  have hr0 : r ≠ 0 := ne_of_gt h0
  set t := (⌊(1 : ℚ) / r⌋).toNat with ht
  induction n with
  | zero => simp [Sampler.acceptCount]
  | succ m ihm =>
    have hdivle : seed / t ≤ (m + seed) / t := Nat.div_le_div_right (Nat.le_add_left seed m)
    have hsucc : (m + seed + 1) / t = (m + seed) / t + if t ∣ m + seed + 1 then 1 else 0 :=
      Nat.succ_div (m + seed) t
    simp only [Sampler.acceptCount, Sampler.shouldSample, if_neg hr1, if_neg hr0, ihm]
    have harr : m + 1 + seed = m + seed + 1 := by omega
    rw [harr, hsucc]
    by_cases hd : (m + seed + 1) % t = 0
    · have hdvd : t ∣ m + seed + 1 := Nat.dvd_of_mod_eq_zero hd
      simp only [hd, decide_True, if_true, if_pos hdvd]
      omega
    · have hdvd : ¬ t ∣ m + seed + 1 := by
        intro hh
        obtain ⟨c, hc⟩ := hh
        exact hd (by rw [hc]; exact Nat.mul_mod_right t c)
      simp only [decide_eq_true_eq, if_neg hd, if_neg hdvd]
      omega

/-- C7 counterexample: at rate 3/5 the threshold is `⌊1/(3/5)⌋ = ⌊5/3⌋ = 1`,
so the counter-modulo test accepts every call and the long-run acceptance
frequency tends to 1, not to the configured rate 3/5. -/
theorem sampler_convergence_counterexample :
    ¬ Filter.Tendsto (fun n => (Sampler.acceptCount (3/5) 0 n : ℝ) / n)
        Filter.atTop (nhds ((3 : ℝ) / 5)) := by
  intro hcon
  have hall : ∀ n : ℕ, Sampler.acceptCount (3/5) 0 n = n := by
    intro n
    rw [acceptCount_formula (3/5) 0 (by norm_num) (by norm_num) n,
      show (⌊(1 : ℚ) / (3/5)⌋).toNat = 1 from by norm_num]
    simp
  have hone : Filter.Tendsto (fun n => (Sampler.acceptCount (3/5) 0 n : ℝ) / n)
      Filter.atTop (nhds 1) := by
    have hev : (fun _ : ℕ => (1 : ℝ)) =ᶠ[Filter.atTop]
        (fun n : ℕ => (Sampler.acceptCount (3/5) 0 n : ℝ) / n) := by
      filter_upwards [Filter.eventually_gt_atTop 0] with n hn
      have hne : (n : ℝ) ≠ 0 := by
        have : (0:ℝ) < (n:ℝ) := by exact_mod_cast hn
        exact ne_of_gt this
      rw [hall n, div_self hne]
    exact Filter.Tendsto.congr' hev tendsto_const_nhds
  have := tendsto_nhds_unique hone hcon
  norm_num at this

/-- C7 amended: `shouldSample` is always true at rate 1 and always false at
rate 0; for a fixed intermediate rate `r` the decision is the deterministic
counter-modulo test `(counter + seed) % ⌊1/r⌋ == 0`, whose long-run
acceptance frequency converges to `1/⌊1/r⌋` — which equals `r` exactly when
`1/r` is an integer, and otherwise differs from it. -/
theorem sampler_gate_and_convergence :
    (∀ s : Sampler, s.rate = 1 → (s.shouldSample).1 = true) ∧
    (∀ s : Sampler, s.rate = 0 → (s.shouldSample).1 = false) ∧
    (∀ (r : ℚ) (seed : Nat), 0 < r → r < 1 →
      Filter.Tendsto (fun n => (Sampler.acceptCount r seed n : ℝ) / n) Filter.atTop
        (nhds (1 / ((⌊(1 : ℚ) / r⌋).toNat : ℝ)))) := by
  refine ⟨?_, ?_, ?_⟩
  · intro s h
    simp [Sampler.shouldSample, h]
  · intro s h
    have h1 : s.rate ≠ 1 := by rw [h]; norm_num
    simp [Sampler.shouldSample, h, h1]
  · intro r seed h0 h1
    have htpos : 0 < (⌊(1 : ℚ) / r⌋).toNat := sampler_threshold_pos r h0 h1
    generalize hT : (⌊(1 : ℚ) / r⌋).toNat = t at htpos ⊢
    have htR : (0:ℝ) < (t:ℝ) := by exact_mod_cast htpos
    have hcount : ∀ n : ℕ, (Sampler.acceptCount r seed n : ℝ)
        = (((n + seed) / t : ℕ) : ℝ) - ((seed / t : ℕ) : ℝ) := by
      intro n
      have hle : seed / t ≤ (n + seed) / t := Nat.div_le_div_right (Nat.le_add_left seed n)
      rw [acceptCount_formula r seed h0 h1 n, hT, Nat.cast_sub hle]
    have hzero : Filter.Tendsto (fun n : ℕ => 1 / (n:ℝ)) Filter.atTop (nhds 0) :=
      tendsto_one_div_atTop_nhds_zero_nat
    have hG2 : Filter.Tendsto
        (fun n : ℕ => 1/(t:ℝ) + ((seed:ℝ)/t) * (1/n) - ((seed / t : ℕ) : ℝ) * (1/n))
        Filter.atTop (nhds (1/(t:ℝ))) := by
      have hthis : Filter.Tendsto
          (fun n : ℕ => 1/(t:ℝ) + ((seed:ℝ)/t) * (1/n) - ((seed / t : ℕ) : ℝ) * (1/n))
          Filter.atTop
          (nhds (1/(t:ℝ) + ((seed:ℝ)/t) * 0 - ((seed / t : ℕ) : ℝ) * 0)) :=
        (tendsto_const_nhds.add (hzero.const_mul _)).sub (hzero.const_mul _)
      simpa using hthis
    have hG1 : Filter.Tendsto
        (fun n : ℕ => 1/(t:ℝ) + ((seed:ℝ)/t) * (1/n) - ((seed / t : ℕ) : ℝ) * (1/n) - 1/n)
        Filter.atTop (nhds (1/(t:ℝ))) := by
      have hthis := hG2.sub hzero
      rw [sub_zero] at hthis
      exact hthis
    refine tendsto_of_tendsto_of_tendsto_of_le_of_le' hG1 hG2 ?_ ?_
    · filter_upwards [Filter.eventually_gt_atTop 0] with n hn
      have hnR : (0:ℝ) < (n:ℝ) := by exact_mod_cast hn
      rw [hcount n]
      have hdm : t * ((n + seed) / t) + (n + seed) % t = n + seed := Nat.div_add_mod _ _
      have hmod : (n + seed) % t < t := Nat.mod_lt _ htpos
      have hcastdm : (t : ℝ) * (((n + seed) / t : ℕ) : ℝ) + (((n + seed) % t : ℕ) : ℝ)
          = (n:ℝ) + (seed:ℝ) := by exact_mod_cast hdm
      have hmodR : (((n + seed) % t : ℕ) : ℝ) < (t:ℝ) := by exact_mod_cast hmod
      have hqlb : ((n:ℝ) + seed)/t - 1 ≤ (((n + seed) / t : ℕ) : ℝ) := by
        rw [sub_le_iff_le_add, div_le_iff₀ htR]
        nlinarith [hcastdm, hmodR]
      have halg : ((((n:ℝ) + seed)/t - 1) - ((seed / t : ℕ) : ℝ))/(n:ℝ)
          = 1/(t:ℝ) + ((seed:ℝ)/t) * (1/(n:ℝ)) - ((seed / t : ℕ) : ℝ) * (1/(n:ℝ)) - 1/(n:ℝ) := by
        field_simp
        ring
      rw [← halg]
      exact (div_le_div_iff_of_pos_right hnR).mpr (by linarith [hqlb])
    · filter_upwards [Filter.eventually_gt_atTop 0] with n hn
      have hnR : (0:ℝ) < (n:ℝ) := by exact_mod_cast hn
      rw [hcount n]
      have hqub : (((n + seed) / t : ℕ) : ℝ) ≤ ((n:ℝ) + seed)/t := by
        exact_mod_cast Nat.cast_div_le (α := ℝ)
      have halg2 : ((((n:ℝ) + seed)/t) - ((seed / t : ℕ) : ℝ))/(n:ℝ)
          = 1/(t:ℝ) + ((seed:ℝ)/t) * (1/(n:ℝ)) - ((seed / t : ℕ) : ℝ) * (1/(n:ℝ)) := by
        field_simp
        ring
      rw [← halg2]
      exact (div_le_div_iff_of_pos_right hnR).mpr (by linarith [hqub])

/-- C7 witness: the amended theorem at rate 1 (always true), rate 0 (always
false), and rate 1/2, where the threshold is 2 and the frequency converges
to 1/2. -/
theorem sampler_gate_and_convergence_witness :
    (Sampler.shouldSample { rate := 1, counter := 0, seed := 0 }).1 = true ∧
    (Sampler.shouldSample { rate := 0, counter := 4, seed := 2 }).1 = false ∧
    Filter.Tendsto (fun n => (Sampler.acceptCount (1/2) 0 n : ℝ) / n) Filter.atTop
      (nhds (1 / ((⌊(1 : ℚ) / (1/2)⌋).toNat : ℝ))) :=
  ⟨sampler_gate_and_convergence.1 _ rfl,
   sampler_gate_and_convergence.2.1 _ rfl,
   sampler_gate_and_convergence.2.2 (1/2) 0 (by norm_num) (by norm_num)⟩

/-- Number of heap addresses not yet in the `seen` set. -/
def unseenCount (h : Heap) (seen : List Nat) : Nat :=
  ((h.map Prod.fst).toFinset.filter (fun a => a ∉ seen)).card

/-- Growing the `seen` set never increases the unseen count. -/
theorem unseenCount_le_of_subset (h : Heap) {s1 s2 : List Nat} (hsub : s1 ⊆ s2) :
    unseenCount h s2 ≤ unseenCount h s1 := by
  apply Finset.card_le_card
  intro x hx
  simp only [Finset.mem_filter] at hx ⊢
  exact ⟨hx.1, fun hmem => hx.2 (hsub hmem)⟩

/-- Marking a fresh heap address as seen strictly decreases the unseen
count. -/
theorem unseenCount_cons_lt (h : Heap) (seen : List Nat) (a : Nat)
    (hmem : a ∈ (h.map Prod.fst).toFinset) (hnot : a ∉ seen) :
    unseenCount h (a :: seen) < unseenCount h seen := by
  apply Finset.card_lt_card
  constructor
  · intro x hx
    simp only [Finset.mem_filter, List.mem_cons, not_or] at hx ⊢
    exact ⟨hx.1, hx.2.2⟩
  · intro hcon
    have ha : a ∈ (h.map Prod.fst).toFinset.filter (fun x => x ∉ seen) := by
      simp only [Finset.mem_filter]
      exact ⟨hmem, hnot⟩
    have := hcon ha
    simp only [Finset.mem_filter, List.mem_cons, not_or] at this
    exact this.2.1 trivial

/-- The traversal only ever adds to the `seen` set (the `WeakSet` is
add-only). -/
theorem resolve_seen_mono (h : Heap) : ∀ fuel : Nat,
    (∀ seen v r s', resolveVal h fuel seen v = some (r, s') → seen ⊆ s') ∧
    (∀ seen l r s', resolveFields h fuel seen l = some (r, s') → seen ⊆ s') := by
  intro fuel
  induction fuel with
  | zero =>
    constructor
    · intro seen v r s' hres
      simp [resolveVal] at hres
    · intro seen l r s' hres
      match l with
      | [] =>
        simp only [resolveFields, Option.some.injEq, Prod.mk.injEq] at hres
        rw [← hres.2]
        exact fun x hx => hx
      | (k, v) :: rest =>
        simp [resolveFields, resolveVal] at hres
  | succ f ih =>
    have hval : ∀ seen v r s', resolveVal h (f + 1) seen v = some (r, s') → seen ⊆ s' := by
      intro seen v r s' hres
      match v with
      | .undef | .jnull | .jbool _ | .jnum _ | .jstr _ | .jbig _ | .jfun _ =>
        simp only [resolveVal, Option.some.injEq, Prod.mk.injEq] at hres
        rw [← hres.2]
        exact fun x hx => hx
      | .ref a =>
        by_cases ha : a ∈ seen
        · simp only [resolveVal, if_pos ha, Option.some.injEq, Prod.mk.injEq] at hres
          rw [← hres.2]
          exact fun x hx => hx
        · simp only [resolveVal, if_neg ha] at hres
          cases hfld : resolveFields h f (a :: seen)
              (((h.find? (fun p => p.1 = a)).map Prod.snd).getD []) with
          | none => rw [hfld] at hres; simp at hres
          | some pr =>
            rw [hfld] at hres
            simp only [Option.some.injEq, Prod.mk.injEq] at hres
            have hsub := ih.2 (a :: seen) _ pr.1 pr.2 (by rw [hfld])
            rw [← hres.2]
            exact fun x hx => hsub (List.mem_cons_of_mem a hx)
    refine ⟨hval, ?_⟩
    intro seen l
    induction l generalizing seen with
    | nil =>
      intro r s' hres
      simp only [resolveFields, Option.some.injEq, Prod.mk.injEq] at hres
      rw [← hres.2]
      exact fun x hx => hx
    | cons kv rest ihl =>
      obtain ⟨k, v⟩ := kv
      intro r s' hres
      simp only [resolveFields] at hres
      cases hv : resolveVal h (f + 1) seen v with
      | none => rw [hv] at hres; simp at hres
      | some pr1 =>
        obtain ⟨jv1, s1⟩ := pr1
        rw [hv] at hres
        simp only at hres
        cases hrest : resolveFields h (f + 1) s1 rest with
        | none => rw [hrest] at hres; simp at hres
        | some pr2 =>
          obtain ⟨fs2, s2⟩ := pr2
          rw [hrest] at hres
          simp only [Option.some.injEq, Prod.mk.injEq] at hres
          have h1 := hval seen v jv1 s1 hv
          have h2 := ihl s1 fs2 s2 hrest
          rw [← hres.2]
          exact fun x hx => h2 (h1 hx)

/-- With fuel exceeding the number of unseen heap addresses, the traversal
never exhausts it. -/
theorem resolve_total (h : Heap) : ∀ fuel : Nat,
    (∀ seen v, unseenCount h seen < fuel → (resolveVal h fuel seen v).isSome) ∧
    (∀ seen l, unseenCount h seen < fuel → (resolveFields h fuel seen l).isSome) := by
  intro fuel
  induction fuel with
  | zero =>
    constructor <;> intro seen x hlt <;> omega
  | succ f ih =>
    have hval : ∀ seen v, unseenCount h seen < f + 1 → (resolveVal h (f + 1) seen v).isSome := by
      intro seen v hlt
      match v with
      | .undef | .jnull | .jbool _ | .jnum _ | .jstr _ | .jbig _ | .jfun _ =>
        simp [resolveVal]
      | .ref a =>
        by_cases ha : a ∈ seen
        · simp [resolveVal, if_pos ha]
        · by_cases hmem : a ∈ (h.map Prod.fst).toFinset
          · have hdec := unseenCount_cons_lt h seen a hmem ha
            have hlt' : unseenCount h (a :: seen) < f := by omega
            have hsome := ih.2 (a :: seen)
              (((h.find? (fun p => p.1 = a)).map Prod.snd).getD []) hlt'
            obtain ⟨pr, hpr⟩ := Option.isSome_iff_exists.mp hsome
            simp [resolveVal, if_neg ha, hpr]
          · have hfind : h.find? (fun p => p.1 = a) = none := by
              rw [List.find?_eq_none]
              intro p hp hpa
              apply hmem
              simp only [decide_eq_true_eq] at hpa
              simp only [List.mem_toFinset, List.mem_map]
              exact ⟨p, hp, hpa⟩
            simp [resolveVal, if_neg ha, hfind, resolveFields]
    refine ⟨hval, ?_⟩
    intro seen l
    induction l generalizing seen with
    | nil => intro hlt; simp [resolveFields]
    | cons kv rest ihl =>
      obtain ⟨k, v⟩ := kv
      intro hlt
      have hv := hval seen v hlt
      obtain ⟨⟨jv, seen'⟩, hv'⟩ := Option.isSome_iff_exists.mp hv
      have hmono := (resolve_seen_mono h (f + 1)).1 seen v jv seen' hv'
      have hlt' : unseenCount h seen' < f + 1 :=
        lt_of_le_of_lt (unseenCount_le_of_subset h hmono) hlt
      have hrest := ihl seen' hlt'
      obtain ⟨pr, hpr⟩ := Option.isSome_iff_exists.mp hrest
      simp [resolveFields, hv', hpr]

/-- C8 counterexample: `stringify(undefined)` is not a string — the replacer
maps the top-level `undefined` to the "skip" sentinel and the underlying
`JSON.stringify` returns the value `undefined`, so the claim "returns a
string for every value" fails at this input. -/
theorem stringify_undefined_counterexample :
    stringify [] .undef = none ∧ (stringify [] .undef).isSome = false := by
  have h : stringify [] .undef = none := by
    simp [stringify, resolveVal, numAddrs]
  exact ⟨h, by rw [h]; rfl⟩

/-- C8 amended: for every heap and value the traversal terminates within
`numAddrs + 1` fuel (the `catch` sentinel is unreachable in the modeled
fragment and no exception escapes); every value other than top-level
`undefined` produces a string (top-level `undefined` yields the JavaScript
value `undefined`, which the `-> string` signature mislabels); and a
reference encountered again within one serialization renders as the literal
`"[Circular]"` without being re-traversed. -/
theorem safeStringify_total_and_circular :
    (∀ (h : Heap) (v : JsVal), (resolveVal h (numAddrs h + 1) [] v).isSome) ∧
    (∀ (h : Heap) (v : JsVal), v ≠ .undef → ∃ s, stringify h v = some s) ∧
    (∀ (h : Heap) (fuel : Nat) (seen : List Nat) (a : Nat), a ∈ seen →
      resolveVal h (fuel + 1) seen (.ref a) = some (some (.str "[Circular]"), seen)) := by
  have htotal : ∀ (h : Heap) (v : JsVal), (resolveVal h (numAddrs h + 1) [] v).isSome := by
    intro h v
    apply (resolve_total h (numAddrs h + 1)).1
    have : unseenCount h [] = numAddrs h := by
      simp [unseenCount, numAddrs]
    omega
  refine ⟨htotal, ?_, ?_⟩
  · intro h v hne
    match v with
    | .jnull => exact ⟨renderJson Json.null, by simp [stringify, resolveVal]⟩
    | .jbool b => exact ⟨renderJson (Json.bool b), by simp [stringify, resolveVal]⟩
    | .jnum n => exact ⟨renderJson (Json.num n), by simp [stringify, resolveVal]⟩
    | .jstr s => exact ⟨renderJson (Json.str s), by simp [stringify, resolveVal]⟩
    | .jbig n => exact ⟨renderJson (Json.str (toString n)), by simp [stringify, resolveVal]⟩
    | .jfun name =>
      exact ⟨renderJson (Json.str ("[Function: "
        ++ (if name = "" then "anonymous" else name) ++ "]")), by simp [stringify, resolveVal]⟩
    | .undef => exact absurd rfl hne
    | .ref a =>
      have hsome := htotal h (.ref a)
      unfold stringify
      cases hres : resolveVal h (numAddrs h + 1) [] (.ref a) with
      | none => rw [hres] at hsome; simp at hsome
      | some pr =>
        obtain ⟨jv, seen'⟩ := pr
        match jv with
        | some j => exact ⟨renderJson j, rfl⟩
        | none =>
          exfalso
          have ha : (a ∈ ([] : List Nat)) = False := by simp
          simp only [resolveVal, ha, if_false] at hres
          cases hfld : resolveFields h (numAddrs h) ([a])
              (((h.find? (fun p => p.1 = a)).map Prod.snd).getD []) with
          | none => rw [hfld] at hres; simp at hres
          | some pr2 => rw [hfld] at hres; simp at hres
  · intro h fuel seen a ha
    simp [resolveVal, if_pos ha]

/-- C8 witness: on the one-object heap whose single field refers back to the
object itself, the amended theorem yields a string result, and a re
-encountered reference renders `"[Circular]"`. -/
theorem safeStringify_total_and_circular_witness :
    (∃ s, stringify [(0, [("self", JsVal.ref 0)])] (.ref 0) = some s) ∧
    resolveVal [(0, [("self", JsVal.ref 0)])] 1 [0] (.ref 0)
      = some (some (.str "[Circular]"), [0]) :=
  ⟨safeStringify_total_and_circular.2.1 [(0, [("self", JsVal.ref 0)])] (.ref 0)
      (fun hcon => JsVal.noConfusion hcon),
   safeStringify_total_and_circular.2.2 [(0, [("self", JsVal.ref 0)])] 0 [0] 0
      (by simp)⟩

end HyperLog
